import Mathlib

/-!
Verification of the kafka-llm-service agent runtime.

Shallow embedding, in Lean 4, of the parts of the Python source that the
spec claims talk about:

* `src/src/llm/utils.py` — image pruning for the LLM provider;
* `src/src/llm/context_compaction/base.py` — context-overflow detection;
* `src/src/kafka/utils.py` — the orphan-tool-message sanitizer;
* `src/src/kafka/base.py` — `run_with_thread` persistence;
* `src/src/tools/base.py`, `src/src/tools/agent.py` — the tool registry
  and the streaming tool executor;
* `src/src/agents/base.py` — the agent loop (`Agent.run`).

Python dicts are modelled as insertion-ordered association lists, Python
sets as lists used only through membership and remove-all operations,
Python `None`/missing values as `Option`, and raised exceptions as
`Except` errors or explicit outcome values.  String truthiness ("" is
falsy) is modelled explicitly at each use site, following the source.
-/

namespace KafkaLLM

/-! ## Python dict and set primitives -/

/-- Lookup in an insertion-ordered dict modelled as an association list
with unique keys (every dict below is built from `[]` through `dictSet`). -/
def dictGet {κ α : Type} [BEq κ] : List (κ × α) → κ → Option α
  | [], _ => Option.none
  | p :: rest, k => if p.1 == k then some p.2 else dictGet rest k

/-- Python dict assignment `m[k] = v`: overwrite in place when the key
exists (keeping its position), append otherwise. -/
def dictSet {κ α : Type} [BEq κ] : List (κ × α) → κ → α → List (κ × α)
  | [], k, v => [(k, v)]
  | p :: rest, k, v =>
    if p.1 == k then (k, v) :: rest else p :: dictSet rest k v

/-- Does `pat` occur as a contiguous run inside `s`? -/
def listHasInfix (pat : List Char) : List Char → Bool
  | [] => pat.isEmpty
  | c :: rest => pat.isPrefixOf (c :: rest) || listHasInfix pat rest

/-- Substring test over a case-folded character list, modelling Python
`pat in s` on strings. -/
def strContains (s : List Char) (pat : String) : Bool :=
  listHasInfix pat.toList s

/-- ASCII lower-casing of one character, as Python `str.lower` acts on
the ASCII error strings the detector receives. -/
def lowerChar (c : Char) : Char :=
  if 'A' ≤ c ∧ c ≤ 'Z' then Char.ofNat (c.toNat + 32) else c

/-- Case-fold a string to a character list (Python `s.lower()`). -/
def lowerStr (s : String) : List Char :=
  s.toList.map lowerChar

/-- Truthiness of an optional string: Python treats both `None` and the
empty string as falsy. -/
def optTruthy (o : Option String) : Bool :=
  match o with
  | some s => s ≠ ""
  | none => false

/-! ## Image pruning (`src/src/llm/utils.py`, `prune_images_in_messages`)

Provider-side messages are the dicts produced by `Message.to_dict`; for
pruning only the shape of `content` matters: absent, a plain string, or a
list of typed parts. -/

/-- One element of a list-shaped `content`: a dict with a `type` field and
an uninterpreted payload (text or image url). -/
structure ContentItem where
  type : String
  payload : String
deriving DecidableEq

/-- The `content` field of a provider-side message dict. -/
inductive PContent where
  | none
  | str (s : String)
  | parts (items : List ContentItem)
deriving DecidableEq

/-- A provider-side message dict, as consumed by `prune_images_in_messages`. -/
structure PMsg where
  role : String
  content : PContent
deriving DecidableEq

/-- Is this content part an image part (`type` is `image` or `image_url`)? -/
def isImageItem (it : ContentItem) : Bool :=
  it.type == "image" || it.type == "image_url"

/-- The `all_images` list of `prune_images_in_messages` (lines 99-107):
every image part of every list-shaped content, paired with the index of
its message. -/
def collectImages (messages : List PMsg) : List (Nat × ContentItem) :=
  (messages.enum).flatMap (fun p =>
    match p.2.content with
    | PContent.parts items => (items.filter isImageItem).map (fun it => (p.1, it))
    | _ => [])

/-- Shallow embedding of `prune_images_in_messages`
(`src/src/llm/utils.py` lines 85-131).

When `len(all_images) > max_images` the source executes
`set(all_images[:-max_images])` (line 113).  Every element of
`all_images` is an `(index, item)` pair whose `item` is a Python dict
(guaranteed by the `isinstance(item, dict)` filter on line 106), and
dicts are unhashable, so building the set raises
`TypeError: unhashable type: dict`; for `max_images = 0` the slice is
empty but the membership test `(idx, item) in images_to_remove` on line
122 hashes the pair and raises the same error at the first image part.
Hence the pruning branch always raises, and the function returns its
input unchanged otherwise (line 130). -/
def prune_images_in_messages (messages : List PMsg) (max_images : Nat := 19) :
    Except String (List PMsg) :=
  let all_images := collectImages messages
  if all_images.length > max_images then
    Except.error "TypeError: unhashable type: dict"
  else
    Except.ok messages

/-! ## Context-overflow detection
(`src/src/llm/context_compaction/base.py`, `is_context_length_error`) -/

/-- A Python exception value as seen by the detector: its `str()` form and,
when the error object has a truthy `body` attribute, the `str()` form of
that body. -/
structure PyError where
  msg : String
  body : Option String := Option.none
deriving DecidableEq

/-- Shallow embedding of `is_context_length_error`
(`src/src/llm/context_compaction/base.py` lines 10-65): the chain of
early-return `if` tests over the case-folded `str(error)`, then the
body fallback, which checks only the two patterns
`"prompt is too long"` and `"input is too long"`. -/
def is_context_length_error (e : PyError) : Bool :=
  let s := lowerStr e.msg
  if strContains s "prompt is too long" && strContains s "tokens" then true
  else if strContains s "input is too long" then true
  else if strContains s "input length and" && strContains s "max_tokens" &&
      strContains s "exceed context limit" then true
  else if strContains s "context_length_exceeded" then true
  else if strContains s "maximum context length" then true
  else if strContains s "token limit" then true
  else if strContains s "exceeds the maximum" && strContains s "token" then true
  else if strContains s "too many tokens" then true
  else if strContains s "exceeds maximum" && strContains s "tokens" then true
  else
    match e.body with
    | some b =>
      let bs := lowerStr b
      strContains bs "prompt is too long" || strContains bs "input is too long"
    | Option.none => false

/-- The nine context-overflow signature patterns of spec section 4.6,
applied to an already case-folded error string.  Written from the spec
text, to compare with the source function. -/
def matchesOverflowSignatures (s : List Char) : Bool :=
  (strContains s "prompt is too long" && strContains s "tokens") ||
  strContains s "input is too long" ||
  (strContains s "input length and" && strContains s "max_tokens" &&
    strContains s "exceed context limit") ||
  strContains s "context_length_exceeded" ||
  strContains s "maximum context length" ||
  strContains s "token limit" ||
  (strContains s "exceeds the maximum" && strContains s "token") ||
  strContains s "too many tokens" ||
  (strContains s "exceeds maximum" && strContains s "tokens")

/-! ## Internal messages (`src/src/llm/types.py`)

A fully accumulated tool call as stored on an assistant message.  The
Python value is the dict
`{"id", "type": "function", "function": {"name", "arguments",
"thought_signature"?}}`; the constant `type` field is omitted. -/

structure ToolCall where
  id : String
  name : String
  arguments : String
  thought_signature : Option String := Option.none
deriving DecidableEq

/-- The internal `Message`.  `tool_calls = []` models Python `None` or an
empty list (both falsy, and the source only tests truthiness);
`content`, `tool_call_id` and `name` model the optional fields. -/
structure Message where
  role : String
  content : Option String := Option.none
  tool_calls : List ToolCall := []
  tool_call_id : Option String := Option.none
  name : Option String := Option.none
deriving DecidableEq

/-! ## Sanitizer (`src/src/kafka/utils.py`, `sanitize_messages_for_openai`)

The Python set `valid_tool_call_ids` is modelled as a list used only
through membership (`contains`) and removal of an element
(`filter (· ≠ id)`, matching `set.discard`); both operations agree with
the set semantics. -/

/-- The set comprehension
`{tc.get("id") for tc in msg.tool_calls if tc.get("id")}`: the non-empty
(truthy) ids of the tool calls of an assistant message. -/
def toolCallIds (msg : Message) : List String :=
  (msg.tool_calls.map (fun tc => tc.id)).filter (fun s => s ≠ "")

/-- The traversal of `sanitize_messages_for_openai` (lines 41-59), with
the running `valid_tool_call_ids` made explicit.  A tool message is kept
when its `tool_call_id` is truthy and currently valid, and its id is then
discarded; an assistant message with tool calls replaces the valid set;
any other message resets it. -/
def sanitizeAux : List Message → List String → List Message
  | [], _ => []
  | msg :: rest, validIds =>
    if msg.role == "assistant" && !msg.tool_calls.isEmpty then
      msg :: sanitizeAux rest (toolCallIds msg)
    else if msg.role == "tool" then
      match msg.tool_call_id with
      | some tid =>
        if tid ≠ "" && validIds.contains tid then
          msg :: sanitizeAux rest (validIds.filter (fun x => x ≠ tid))
        else
          sanitizeAux rest validIds
      | Option.none => sanitizeAux rest validIds
    else
      -- user, system or assistant without tool calls: the guard on line 57
      -- is always true here, so the valid set is reset.
      msg :: sanitizeAux rest []

/-- Shallow embedding of `sanitize_messages_for_openai`
(`src/src/kafka/utils.py` lines 25-61). -/
def sanitize_messages_for_openai (messages : List Message) : List Message :=
  sanitizeAux messages []

/-! ## Tool registry collision resolution
(`src/src/tools/agent.py`, `AgentToolProvider.connect` lines 477-507,
`add_sandbox_tool` lines 805-813; `src/src/tools/base.py`,
`ToolProvider.add_tool` lines 174-193)

The routing table is `_tool_source_map : dict name → source`, where the
source is `"local"`, `"sandbox"`, or an MCP server name; `run_tool` and
`run_tool_stream` dispatch on it.  `connect` fills it in three passes. -/

/-- An MCP server as `connect` sees it: its configured name, the tool
names it reports from discovery, and whether its connection attempt
succeeds (a failure is caught, logged and skipped, lines 494-496). -/
structure MCPServer where
  name : String
  tools : List String
  connects : Bool
deriving DecidableEq

/-- Write every name of `ts` into the map with value `v`, in order
(the body of the per-server discovery loop and of the sandbox pass). -/
def setAllPass (ts : List String) (v : String) (m : List (String × String)) :
    List (String × String) :=
  ts.foldl (fun m2 t => dictSet m2 t v) m

/-- The MCP pass of `connect` (lines 483-496): every successfully
connected server writes its discovered tool names unconditionally;
a failed connection is skipped. -/
def mcpPass (servers : List MCPServer) (m : List (String × String)) :
    List (String × String) :=
  servers.foldl (fun m2 s =>
    if s.connects then setAllPass s.tools s.name m2 else m2) m

/-- The local pass of `connect` (lines 499-501): a local tool name is
written only when still absent from the map. -/
def localPass (localTools : List String) (m : List (String × String)) :
    List (String × String) :=
  localTools.foldl (fun m2 t =>
    if (dictGet m2 t).isSome then m2 else dictSet m2 t "local") m

/-- The sandbox pass of `connect` (lines 504-505): every sandbox tool
name is written unconditionally. -/
def sandboxPass (sandboxTools : List String) (m : List (String × String)) :
    List (String × String) :=
  setAllPass sandboxTools "sandbox" m

/-- The `_tool_source_map` produced by `AgentToolProvider.connect`
(lines 483-505) starting from map `m0`: the MCP pass, then the local
pass, then the sandbox pass. -/
def connectSourceMap (servers : List MCPServer) (localTools : List String)
    (sandboxTools : List String) (m0 : List (String × String)) :
    List (String × String) :=
  sandboxPass sandboxTools (localPass localTools (mcpPass servers m0))

/-- `get_tool_source` (line 831-833): lookup in the source map. -/
def get_tool_source (m : List (String × String)) (name : String) :
    Option String :=
  dictGet m name

/-- The MCP source a name ends up with: the last successfully connected
server whose discovery reported the name (later servers overwrite
earlier ones in `connect`).  Specification-side helper for the
characterization of `connectSourceMap`. -/
def mcpSource : List MCPServer → String → Option String
  | [], _ => Option.none
  | s :: rest, t =>
    match mcpSource rest t with
    | some x => some x
    | Option.none =>
      if s.connects = true ∧ t ∈ s.tools then some s.name else Option.none

/-! ## Streaming tool executor
(`src/src/tools/agent.py`, `AgentToolProvider.run_tool_stream`,
lines 677-803) -/

/-- One chunk of a streaming tool result (`src/src/tools/types.py`,
`ToolResultChunk`). -/
structure ToolResultChunk where
  tool_call_id : String
  tool_name : String
  delta : String
  is_complete : Bool
deriving DecidableEq

/-- The observable behaviour of the underlying per-kind stream
(`sandbox_tool.run_stream`, `tool.run_stream` or
`connection.call_tool_stream`): the string chunks it yields before
either finishing normally (`error = none`) or raising an exception whose
`str()` is `e` (`error = some e`). -/
structure StreamRun where
  chunks : List String
  error : Option String := Option.none
deriving DecidableEq

/-- The registry state `run_tool_stream` consults: the routing table
`_tool_source_map`, the names present in `_sandbox_tools`, the local
tools (name, paired with `has_handler`), and the connected MCP server
names (`_mcp_connections`). -/
structure ToolProviderState where
  tool_source_map : List (String × String)
  sandbox_tools : List String
  local_tools : List (String × Bool)
  mcp_connections : List String

/-- The common shape of the three per-kind branches of `run_tool_stream`:
each yielded string becomes a chunk with `is_complete = false`; a normal
end of stream appends the empty sentinel chunk with `is_complete = true`
(lines 728-734, 756-762, 789-795); an exception escaping the body is
caught at lines 797-803 and becomes a final `Error: ` chunk with
`is_complete = true`. -/
def streamBody (tool_call_id name : String) (r : StreamRun) :
    List ToolResultChunk :=
  r.chunks.map (fun d => ⟨tool_call_id, name, d, false⟩) ++
    match r.error with
    | some e => [⟨tool_call_id, name, "Error: " ++ e, true⟩]
    | Option.none => [⟨tool_call_id, name, "", true⟩]

/-- Shallow embedding of `AgentToolProvider.run_tool_stream`
(lines 677-803).  The behaviour of the dispatched handler is supplied by
`outcome` (the arguments do not influence the routing).  Every failure
path yields a single final chunk whose delta starts with `Error: `. -/
def run_tool_stream (st : ToolProviderState) (outcome : String → StreamRun)
    (name : String) (tool_call_id : String) : List ToolResultChunk :=
  match dictGet st.tool_source_map name with
  | Option.none =>
    [⟨tool_call_id, name, "Error: Tool not found: " ++ name, true⟩]
  | some source =>
    if source == "sandbox" then
      if st.sandbox_tools.contains name then
        streamBody tool_call_id name (outcome name)
      else
        [⟨tool_call_id, name, "Error: Sandbox tool not found: " ++ name, true⟩]
    else if source == "local" then
      match dictGet st.local_tools name with
      | some true => streamBody tool_call_id name (outcome name)
      | _ =>
        [⟨tool_call_id, name,
          "Error: Tool not found or no handler: " ++ name, true⟩]
    else
      if st.mcp_connections.contains source then
        streamBody tool_call_id name (outcome name)
      else
        [⟨tool_call_id, name,
          "Error: MCP server not connected: " ++ source, true⟩]

/-- Does tool lookup fail inside `run_tool_stream` (as opposed to the
dispatched execution raising)?  Mirrors the four guard paths of the
source. -/
def toolLookupFails (st : ToolProviderState) (name : String) : Bool :=
  match dictGet st.tool_source_map name with
  | Option.none => true
  | some source =>
    if source == "sandbox" then !st.sandbox_tools.contains name
    else if source == "local" then
      match dictGet st.local_tools name with
      | some true => false
      | _ => true
    else !st.mcp_connections.contains source

/-! ## The agent loop (`src/src/agents/base.py`, `Agent.run`) -/

/-- A partial tool-call delta inside a provider stream chunk
(`tc.get("index", 0)` and the optional `id` / `function.name` /
`function.arguments` / `function.thought_signature` fields). -/
structure ToolCallDelta where
  index : Nat := 0
  id : Option String := Option.none
  fname : Option String := Option.none
  fargs : Option String := Option.none
  thought : Option String := Option.none
deriving DecidableEq

/-- A chunk of the provider stream (`src/src/llm/types.py`,
`StreamChunk`), restricted to the fields `Agent.run` reads. -/
structure StreamChunk where
  role : Option String := Option.none
  content : Option String := Option.none
  tool_calls : List ToolCallDelta := []
  finish_reason : Option String := Option.none
deriving DecidableEq

/-- The result of one `stream_completion` call, seen from the buffering
loop on lines 229-233: either the full list of buffered chunks, or the
exception the iteration raised. -/
inductive LLMResult where
  | ok (chunks : List StreamChunk)
  | err (e : PyError)

/-- The environment a run interacts with: the `n`-th `stream_completion`
call (counting every call, retries included), the compaction provider
(`none` result models `compact` raising), whether one is configured, the
lenient JSON argument parser (Python `json.loads`, an external
collaborator; `none` models a parse error), and the tool streams. -/
structure AgentEnv where
  llm : Nat → LLMResult
  hasCompaction : Bool
  compact : List Message → Option (List Message)
  parseArgs : String → Option (List (String × String))
  runToolStream : String → List (String × String) → String → List ToolResultChunk

/-- Events yielded by `Agent.run`, restricted to the payload fields the
claims mention.  Chunk events carry the accumulated-view content delta
and finish reason. -/
inductive LoopEvent where
  | chunk (content : Option String) (finish_reason : Option String)
  | toolResult (tool_call_id : String) (tool_name : String) (delta : String)
      (is_complete : Bool)
  | agentDone (reason : String) (final_content : Option String)
      (summary : Option String) (iteration : Nat)
deriving DecidableEq

/-- How a run ends: normal return (after some `agent_done` event) or a
propagated exception. -/
inductive AgentOutcome where
  | done
  | raised (e : PyError)
deriving DecidableEq

/-- The observable result of `Agent.run`: the events yielded, the final
working messages, how many times `compact` was invoked, and whether the
generator returned or raised. -/
structure RunResult where
  events : List LoopEvent
  messages : List Message
  compactCalls : Nat
  outcome : AgentOutcome

/-- The per-index tool-call accumulator entry (lines 292-300): the dict
`{"id", "type": "function", "function": {"name", "arguments"}}` that the
deltas are merged into. -/
structure AccToolCall where
  id : String
  name : String
  arguments : String
  thought_signature : Option String := Option.none
deriving DecidableEq

/-- Merge one tool-call delta into the per-index accumulator
(lines 288-314): initialize the entry on first sight of the index, then
append to `arguments` and last-write-wins on truthy `id`, `name` and
`thought_signature`. -/
def mergeDelta (acc : List (Nat × AccToolCall)) (tc : ToolCallDelta) :
    List (Nat × AccToolCall) :=
  let acc :=
    match dictGet acc tc.index with
    | some _ => acc
    | Option.none =>
      dictSet acc tc.index
        ⟨tc.id.getD "", tc.fname.getD "", "", Option.none⟩
  match dictGet acc tc.index with
  | Option.none => acc
  | some entry =>
    let entry :=
      if optTruthy tc.fargs then
        { entry with arguments := entry.arguments ++ tc.fargs.getD "" }
      else entry
    let entry := if optTruthy tc.id then { entry with id := tc.id.getD "" } else entry
    let entry :=
      if optTruthy tc.fname then { entry with name := tc.fname.getD "" } else entry
    let entry :=
      if optTruthy tc.thought then { entry with thought_signature := tc.thought }
      else entry
    dictSet acc tc.index entry

/-- Processing of the buffered chunks (lines 274-348): accumulate text
content into `full_content`, merge tool-call deltas, and yield one
OpenAI-shape chunk event per stream chunk. -/
def processChunks (chunks : List StreamChunk) :
    String × List (Nat × AccToolCall) × List LoopEvent :=
  chunks.foldl
    (fun st chunk =>
      let fullContent :=
        if optTruthy chunk.content then st.1 ++ chunk.content.getD "" else st.1
      let acc := chunk.tool_calls.foldl mergeDelta st.2.1
      (fullContent, acc,
        st.2.2 ++ [LoopEvent.chunk
          (if optTruthy chunk.content then chunk.content else Option.none)
          chunk.finish_reason]))
    ("", [], [])

/-- Insert into a sorted list of naturals (ascending). -/
def insertSorted (x : Nat) : List Nat → List Nat
  | [] => [x]
  | y :: ys => if x ≤ y then x :: y :: ys else y :: insertSorted x ys

/-- `sorted(accumulated_tool_calls.keys())`. -/
def sortNat (l : List Nat) : List Nat :=
  l.foldr insertSorted []

/-- Materialize the accumulated tool calls as an ordered list by index
(line 351). -/
def materializeCalls (acc : List (Nat × AccToolCall)) : List AccToolCall :=
  (sortNat (acc.map (fun p => p.1))).filterMap (fun i => dictGet acc i)

/-- Lenient argument parsing (lines 377-381): an empty string yields the
empty dict, a parse failure yields the empty dict. -/
def lenientParse (env : AgentEnv) (s : String) : List (String × String) :=
  if s = "" then [] else (env.parseArgs s).getD []

/-- The `json.dumps({"status": "idle", "summary": summary})` payload of
the synthetic idle tool message (exact for summaries needing no JSON
escaping). -/
def idlePayload (summary : String) : String :=
  "\x7b\"status\": \"idle\", \"summary\": \"" ++ summary ++ "\"\x7d"

/-- An assistant message carrying the accumulated content and tool calls
(lines 364-369): content is `None` when `full_content` is falsy. -/
def assistantMsg (fullContent : String) (calls : List AccToolCall) : Message :=
  { role := "assistant"
    content := if fullContent = "" then Option.none else some fullContent
    tool_calls := calls.map (fun c =>
      ⟨c.id, c.name, c.arguments, c.thought_signature⟩) }

/-- The tool message appended for one executed tool call: the synthetic
idle payload for `idle` (lines 387-393), otherwise the concatenation of
the deltas streamed by `run_tool_stream` (lines 413-433). -/
def toolMsgFor (env : AgentEnv) (tc : AccToolCall) : Message :=
  if tc.name == "idle" then
    let args := lenientParse env tc.arguments
    let summary := (dictGet args "summary").getD ""
    { role := "tool", content := some (idlePayload summary),
      tool_call_id := some tc.id, name := some tc.name }
  else
    let chunks := env.runToolStream tc.name (lenientParse env tc.arguments) tc.id
    { role := "tool",
      content := some (String.join (chunks.map (fun c => c.delta))),
      tool_call_id := some tc.id, name := some tc.name }

/-- Execute the materialized tool calls in order (lines 372-433).
Returns the yielded events, the extended working messages, and
`some summary` when the `idle` branch terminated the run. -/
def execToolCalls (env : AgentEnv) :
    List AccToolCall → List Message → List LoopEvent × List Message × Option String
  | [], messages => ([], messages, Option.none)
  | tc :: rest, messages =>
    if tc.name == "idle" then
      let args := lenientParse env tc.arguments
      let summary := (dictGet args "summary").getD ""
      ([LoopEvent.toolResult tc.id tc.name (idlePayload summary) true],
        messages ++ [toolMsgFor env tc], some summary)
    else
      let chunks := env.runToolStream tc.name (lenientParse env tc.arguments) tc.id
      let events := chunks.map (fun c =>
        LoopEvent.toolResult tc.id tc.name c.delta c.is_complete)
      let next := execToolCalls env rest (messages ++ [toolMsgFor env tc])
      (events ++ next.1, next.2.1, next.2.2)

/-- Signals whether the loop body returned (branch A, idle, or max
iterations) or falls through to the next iteration. -/
inductive StepNext where
  | halt
  | next
deriving DecidableEq

/-- The body of one successful iteration (lines 274-433), after the
chunks were buffered without an exception: process the chunks; with no
tool calls emit `agent_done{text_response}` and halt; otherwise append
the assistant message, run the tool calls, and either halt on idle with
`agent_done{idle}` or continue. -/
def stepOk (env : AgentEnv) (messages : List Message)
    (chunks : List StreamChunk) (iteration : Nat) :
    List LoopEvent × List Message × StepNext :=
  let processed := processChunks chunks
  let fullContent := processed.1
  let calls := materializeCalls processed.2.1
  let chunkEvents := processed.2.2
  if calls.isEmpty then
    (chunkEvents ++
      [LoopEvent.agentDone "text_response" (some fullContent) Option.none iteration],
      messages, StepNext.halt)
  else
    let messages2 := messages ++ [assistantMsg fullContent calls]
    let r := execToolCalls env calls messages2
    match r.2.2 with
    | some summary =>
      (chunkEvents ++ r.1 ++
        [LoopEvent.agentDone "idle" Option.none (some summary) iteration],
        r.2.1, StepNext.halt)
    | Option.none => (chunkEvents ++ r.1, r.2.1, StepNext.next)

/-- The loop of `Agent.run` (lines 210-440).  The Python
`for iteration in range(max_iterations)` is modelled structurally by
`remaining`, the number of counter values not yet used, so that the
current counter value is `iteration` and `remaining + iteration`
always equals `max_iterations` at the call sites.  A caught
context-overflow error with compaction available calls `compact` and
re-enters via `continue`, which advances the `for` counter; any other
caught error, or an overflow after a compaction attempt, is re-raised.
Exhausting the counter yields `agent_done{max_iterations}` (line 439
reports `iteration = max_iterations`). -/
def runFrom (env : AgentEnv) (maxIterations : Nat) :
    Nat → Nat → Nat → Bool → List Message → RunResult
  | 0, _iteration, _callIdx, _attempted, messages =>
    ⟨[LoopEvent.agentDone "max_iterations" Option.none Option.none maxIterations],
      messages, 0, AgentOutcome.done⟩
  | remaining + 1, iteration, callIdx, attempted, messages =>
    match env.llm callIdx with
    | LLMResult.err e =>
      if is_context_length_error e && !attempted then
        if env.hasCompaction then
          match env.compact messages with
          | some compacted =>
            let r := runFrom env maxIterations remaining (iteration + 1)
              (callIdx + 1) true compacted
            { r with compactCalls := r.compactCalls + 1 }
          | Option.none =>
            -- compact itself raised: the original error is re-raised.
            ⟨[], messages, 1, AgentOutcome.raised e⟩
        else ⟨[], messages, 0, AgentOutcome.raised e⟩
      else ⟨[], messages, 0, AgentOutcome.raised e⟩
    | LLMResult.ok chunks =>
      let step := stepOk env messages chunks iteration
      match step.2.2 with
      | StepNext.halt => ⟨step.1, step.2.1, 0, AgentOutcome.done⟩
      | StepNext.next =>
        let r := runFrom env maxIterations remaining (iteration + 1)
          (callIdx + 1) attempted step.2.1
        ⟨step.1 ++ r.events, r.messages, r.compactCalls, r.outcome⟩

/-- Prepend the system prompt when set and not already leading
(lines 199-202); `system_prompt` is truthy only when non-empty. -/
def prependSystem (systemPrompt : Option String) (messages : List Message) :
    List Message :=
  if optTruthy systemPrompt then
    match messages with
    | [] => [{ role := "system", content := systemPrompt }]
    | m :: _ =>
      if m.role == "system" then messages
      else { role := "system", content := systemPrompt : Message } :: messages
  else messages

/-- Shallow embedding of `Agent.run` (`src/src/agents/base.py`
lines 160-440). -/
def agentRun (env : AgentEnv) (maxIterations : Nat)
    (systemPrompt : Option String) (messages : List Message) : RunResult :=
  runFrom env maxIterations maxIterations 0 0 false
    (prependSystem systemPrompt messages)

/-! ## Thread persistence (`src/src/kafka/base.py`,
`KafkaAgent.run_with_thread`, lines 171-310) -/

/-- The events `run_with_thread` distinguishes in its saving loop
(lines 230-299): `tool_result` events, OpenAI-shape chunks with a
non-empty `choices` list (only the first choice is read), `agent_done`
events, and anything else. -/
inductive KEvent where
  | toolResult (tool_call_id : String) (tool_name : Option String)
      (delta : String) (is_complete : Bool)
  | chunk (content : Option String) (tool_calls : List ToolCallDelta)
      (finish_reason : Option String)
  | agentDone (final_content : Option String)
  | other
deriving DecidableEq

/-- The mutable saving state of `run_with_thread` (lines 211-218). -/
structure SaveState where
  messagesToSave : List Message
  finalContent : String
  currentContent : String
  currentToolCalls : List (Nat × AccToolCall)
  accToolResults : List (String × String)

/-- Initial saving state. -/
def initialSaveState : SaveState :=
  ⟨[], "", "", [], []⟩

/-- Merge one tool-call delta of an OpenAI-shape chunk into
`current_tool_calls` (lines 263-278).  Unlike the agent loop, the entry
is initialized empty and `id` and `name` are set by the truthy-update
branches only. -/
def mergeSaveDelta (acc : List (Nat × AccToolCall)) (tc : ToolCallDelta) :
    List (Nat × AccToolCall) :=
  let acc :=
    match dictGet acc tc.index with
    | some _ => acc
    | Option.none => dictSet acc tc.index ⟨"", "", "", Option.none⟩
  match dictGet acc tc.index with
  | Option.none => acc
  | some entry =>
    let entry := if optTruthy tc.id then { entry with id := tc.id.getD "" } else entry
    let entry :=
      if optTruthy tc.fname then { entry with name := tc.fname.getD "" } else entry
    let entry :=
      if optTruthy tc.fargs then
        { entry with arguments := entry.arguments ++ tc.fargs.getD "" }
      else entry
    let entry :=
      if optTruthy tc.thought then { entry with thought_signature := tc.thought }
      else entry
    dictSet acc tc.index entry

/-- Process one event in the saving loop of `run_with_thread`
(lines 230-299), with `save_to_thread` enabled. -/
def saveStep (st : SaveState) (ev : KEvent) : SaveState :=
  match ev with
  | KEvent.toolResult tool_call_id tool_name delta is_complete =>
    let acc0 := st.accToolResults
    let acc :=
      match dictGet acc0 tool_call_id with
      | some prev => dictSet acc0 tool_call_id (prev ++ delta)
      | Option.none => dictSet acc0 tool_call_id ("" ++ delta)
    if is_complete then
      { st with
        accToolResults := acc
        messagesToSave := st.messagesToSave ++
          [{ role := "tool",
             content := some ((dictGet acc tool_call_id).getD ""),
             tool_call_id := some tool_call_id, name := tool_name }] }
    else { st with accToolResults := acc }
  | KEvent.chunk content tool_calls finish_reason =>
    let cur :=
      if optTruthy content then st.currentContent ++ content.getD ""
      else st.currentContent
    let calls := tool_calls.foldl mergeSaveDelta st.currentToolCalls
    if finish_reason == some "tool_calls" then
      let callsList := (materializeCalls calls).map (fun c =>
        (⟨c.id, c.name, c.arguments, c.thought_signature⟩ : ToolCall))
      { st with
        currentContent := ""
        currentToolCalls := []
        messagesToSave := st.messagesToSave ++
          [{ role := "assistant"
             content := if cur = "" then Option.none else some cur
             tool_calls := callsList }] }
    else if finish_reason == some "stop" && cur ≠ "" then
      { st with
        currentContent := ""
        currentToolCalls := calls
        messagesToSave := st.messagesToSave ++
          [{ role := "assistant", content := some cur }] }
    else
      { st with currentContent := cur, currentToolCalls := calls }
  | KEvent.agentDone final_content =>
    { st with finalContent := final_content.getD "" }
  | KEvent.other => st

/-- The saving state after the whole event stream. -/
def processEvents (events : List KEvent) : SaveState :=
  events.foldl saveStep initialSaveState

/-- All messages `run_with_thread` persists after the run (lines
301-310): the tracked messages, plus the final content as one more
assistant message when it is truthy and no already-tracked assistant
message has equal content. -/
def run_with_thread_saved (events : List KEvent) : List Message :=
  let st := processEvents events
  st.messagesToSave ++
    (if st.finalContent ≠ "" &&
        !(st.messagesToSave.any (fun m =>
          m.role == "assistant" && m.content == some st.finalContent)) then
      [{ role := "assistant", content := some st.finalContent }]
    else [])

/-- The pre-run phase of `run_with_thread` (lines 195-209): the combined
and sanitized working context handed to the loop, and the new messages
saved to the store before the run (exactly the `user` and `system`
ones), for `save_to_thread` enabled. -/
def run_with_thread_pre (history new : List Message) :
    List Message × List Message :=
  (sanitize_messages_for_openai (history ++ new),
    new.filter (fun m => m.role == "user" || m.role == "system"))

/-! ## Specification-side definitions

Definitions written from the words of the spec or of an amended claim,
for comparison with the source embeddings above. -/

/-- The sanitizer as the amended claim describes it, with `valid_ids` as
a genuine set: an assistant message carrying tool calls replaces the set
with its (non-empty) tool-call ids; a tool message is kept exactly when
its id is truthy and in the set, and its id is then consumed; every
other message resets the set and is kept. -/
def sanitizeSpecAux : List Message → Finset String → List Message
  | [], _ => []
  | msg :: rest, valid =>
    if msg.role = "assistant" ∧ msg.tool_calls ≠ [] then
      msg :: sanitizeSpecAux rest (toolCallIds msg).toFinset
    else if msg.role = "tool" then
      match msg.tool_call_id with
      | some tid =>
        if tid ≠ "" ∧ tid ∈ valid then
          msg :: sanitizeSpecAux rest (valid.erase tid)
        else sanitizeSpecAux rest valid
      | Option.none => sanitizeSpecAux rest valid
    else msg :: sanitizeSpecAux rest ∅

/-- The whole-list specification sanitizer: start from the empty set. -/
def sanitizeSpec (messages : List Message) : List Message :=
  sanitizeSpecAux messages ∅

/-- The prefix of an iteration's tool calls that the loop actually
executes: every call up to and including the first `idle` call; calls
after it are never reached because the `idle` branch returns. -/
def executedCalls : List AccToolCall → List AccToolCall
  | [] => []
  | tc :: rest => if tc.name == "idle" then [tc] else tc :: executedCalls rest

/-! ## Concrete instances used by the claim theorems -/

/-- A user message. -/
def userHi : Message := { role := "user", content := some "hi" }

/-- An assistant message carrying one tool call with id `a`
(spec scenario 3). -/
def asstA : Message :=
  { role := "assistant", tool_calls := [⟨"a", "f", "", Option.none⟩] }

/-- A tool message answering tool call `a`. -/
def toolA : Message :=
  { role := "tool", content := some "r1", tool_call_id := some "a" }

/-- A tool message with the unmatched id `b` (spec scenario 3). -/
def toolB : Message :=
  { role := "tool", content := some "r2", tool_call_id := some "b" }

/-- A context-overflow exception (the literal message of spec
scenario 4). -/
def overflowErr : PyError :=
  { msg := "prompt is too long: 220000 tokens > 200000 maximum" }

/-- A one-chunk text-only model response. -/
def okTextChunk : StreamChunk :=
  { content := some "ok", finish_reason := some "stop" }

/-- Environment for the compaction-retry scenario: the first
`stream_completion` call raises a context-overflow error, every later
call streams the text `ok`; compaction is configured and returns the
messages unchanged. -/
def envC2 : AgentEnv :=
  { llm := fun n =>
      if n = 0 then LLMResult.err overflowErr else LLMResult.ok [okTextChunk]
    hasCompaction := true
    compact := fun msgs => some msgs
    parseArgs := fun _ => Option.none
    runToolStream := fun _ _ _ => [] }

/-- A model response whose accumulated tool calls are
`[idle (id c1), foo (id c2)]`: an `idle` call followed by another
tool call in the same iteration. -/
def idleFooChunk : StreamChunk :=
  { tool_calls := [
      { index := 0, id := some "c1", fname := some "idle" },
      { index := 1, id := some "c2", fname := some "foo" }] }

/-- Environment for the idle-mid-list scenario: every model call yields
`idleFooChunk`; the tool `foo` would stream one chunk and a sentinel. -/
def envC7 : AgentEnv :=
  { llm := fun _ => LLMResult.ok [idleFooChunk]
    hasCompaction := false
    compact := fun _ => Option.none
    parseArgs := fun _ => Option.none
    runToolStream := fun name _ cid =>
      [⟨cid, name, "out", false⟩, ⟨cid, name, "", true⟩] }

/-- An assistant message with plain content `s`. -/
def mkAsst (s : String) : Message := { role := "assistant", content := some s }

/-- Event stream for the final-content deduplication scenario: two
assistant turns saving contents `A` then `B`, then `agent_done` whose
`final_content` is `A` — equal to the first saved assistant message but
not to the last. -/
def exC8 : List KEvent :=
  [KEvent.chunk (some "A") [] (some "stop"),
   KEvent.chunk (some "B") [] (some "stop"),
   KEvent.agentDone (some "A")]

/-- A new tool message whose `tool_call_id` matches no assistant message:
an orphan from the sanitizer's point of view. -/
def orphanTool : Message :=
  { role := "tool", content := some "c", tool_call_id := some "x" }

/-- A conversation message whose list content holds the given number of
`image_url` parts. -/
def imageMsg (n : Nat) : PMsg :=
  ⟨"user", PContent.parts (List.replicate n ⟨"image_url", "u"⟩)⟩

/-! ## Dict lemmas -/

/-- An early-return `if` over booleans is a disjunction. -/
theorem bool_if_or (c x : Bool) : (if c = true then true else x) = (c || x) := by
  cases c <;> simp

theorem dictGet_dictSet_self {κ α : Type} [BEq κ] [LawfulBEq κ]
    (m : List (κ × α)) (k : κ) (v : α) :
    dictGet (dictSet m k v) k = some v := by
  induction m with
  | nil => simp [dictGet, dictSet]
  | cons p rest ih =>
    by_cases h : (p.1 == k) = true
    · simp [dictSet, h, dictGet]
    · simp [dictSet, h, dictGet, ih]

theorem dictGet_dictSet_ne {κ α : Type} [BEq κ] [LawfulBEq κ]
    (m : List (κ × α)) (k k2 : κ) (v : α) (h : k2 ≠ k) :
    dictGet (dictSet m k v) k2 = dictGet m k2 := by
  induction m with
  | nil =>
    have : (k == k2) = false := by
      simp only [beq_eq_false_iff_ne, ne_eq]
      exact fun hk => h hk.symm
    simp [dictGet, dictSet, this]
  | cons p rest ih =>
    by_cases hp : (p.1 == k) = true
    · have hpk : p.1 = k := by simpa [beq_iff_eq] using hp
      have h1 : (k == k2) = false := by
        simp only [beq_eq_false_iff_ne, ne_eq]
        exact fun hk => h hk.symm
      simp [dictSet, hp, dictGet, hpk, h1]
    · simp [dictSet, hp, dictGet, ih]

/-! ## Claim C4: tool name collision resolution -/

theorem dictGet_setAllPass (ts : List String) (v : String)
    (m : List (String × String)) (name : String) :
    dictGet (setAllPass ts v m) name =
      if name ∈ ts then some v else dictGet m name := by
  induction ts generalizing m with
  | nil => simp [setAllPass]
  | cons t rest ih =>
    have hstep : setAllPass (t :: rest) v m = setAllPass rest v (dictSet m t v) := rfl
    rw [hstep, ih]
    by_cases h : name = t
    · subst h
      rw [if_pos (List.mem_cons_self _ _)]
      split
      · rfl
      · exact dictGet_dictSet_self m name v
    · simp [List.mem_cons, h, dictGet_dictSet_ne m t name v h]

theorem dictGet_localPass (ts : List String)
    (m : List (String × String)) (name : String) :
    dictGet (localPass ts m) name =
      match dictGet m name with
      | some v => some v
      | Option.none => if name ∈ ts then some "local" else Option.none := by
  induction ts generalizing m with
  | nil => cases h : dictGet m name <;> simp [localPass, h]
  | cons t rest ih =>
    have hstep : localPass (t :: rest) m =
        localPass rest (if (dictGet m t).isSome then m else dictSet m t "local") := rfl
    rw [hstep, ih]
    by_cases h : name = t
    · subst h
      cases hm : dictGet m name with
      | some v => simp [hm]
      | none => simp [hm, dictGet_dictSet_self]
    · cases hm : dictGet m t with
      | some v => simp [hm, List.mem_cons, h]
      | none =>
        simp [hm, List.mem_cons, h, dictGet_dictSet_ne m t name "local" h]

theorem dictGet_mcpPass (servers : List MCPServer)
    (m : List (String × String)) (name : String) :
    dictGet (mcpPass servers m) name =
      match mcpSource servers name with
      | some x => some x
      | Option.none => dictGet m name := by
  induction servers generalizing m with
  | nil => simp [mcpPass, mcpSource]
  | cons s rest ih =>
    have hstep : mcpPass (s :: rest) m =
        mcpPass rest (if s.connects then setAllPass s.tools s.name m else m) := rfl
    rw [hstep, ih]
    by_cases hc : s.connects = true
    · rw [if_pos hc]
      cases hr : mcpSource rest name with
      | some x => simp [mcpSource, hr]
      | none =>
        by_cases ht : name ∈ s.tools
        · simp [mcpSource, hr, hc, ht, dictGet_setAllPass]
        · simp [mcpSource, hr, hc, ht, dictGet_setAllPass]
    · have hc2 : s.connects = false := by
        cases hcc : s.connects
        · rfl
        · exact absurd hcc hc
      rw [if_neg (by simp [hc2])]
      cases hr : mcpSource rest name with
      | some x => simp [mcpSource, hr]
      | none => simp [mcpSource, hr, hc2]

/-- C4 counterexample: a provider constructed with a local tool `x` and a
sandbox tool `x` routes `x` to the sandbox kind after `connect`, not to
the first-registered local kind, and nothing is rejected. -/
theorem collision_x_routed_to_sandbox_not_local :
    get_tool_source (connectSourceMap [] ["x"] ["x"] []) "x" = some "sandbox" ∧
    get_tool_source (connectSourceMap [] ["x"] ["x"] []) "x" ≠ some "local" ∧
    get_tool_source (connectSourceMap [⟨"srv", ["y"], true⟩] ["y"] [] []) "y" =
      some "srv" := by
  refine ⟨rfl, ?_, rfl⟩
  decide

/-- C4 (amended): `connect` resolves name collisions by overwriting, not
by rejecting: the sandbox pass wins over every MCP discovery, MCP
discovery wins over local (a local name is recorded only when still
absent), and among MCP servers the last successfully connected one that
reports the name wins. -/
theorem connect_collision_resolution (servers : List MCPServer)
    (localTools sandboxTools : List String) (name : String) :
    get_tool_source (connectSourceMap servers localTools sandboxTools []) name =
      if name ∈ sandboxTools then some "sandbox"
      else
        match mcpSource servers name with
        | some s => some s
        | Option.none =>
          if name ∈ localTools then some "local" else Option.none := by
  unfold get_tool_source connectSourceMap sandboxPass
  rw [dictGet_setAllPass, dictGet_localPass, dictGet_mcpPass]
  by_cases hs : name ∈ sandboxTools
  · simp [hs]
  · cases hm : mcpSource servers name with
    | some x => simp [hs, hm]
    | none =>
      by_cases hl : name ∈ localTools
      · simp [hs, hm, hl, dictGet]
      · simp [hs, hm, hl, dictGet]

/-! ## Claim C1: image pruning -/

/-- C1 (code bug): with 20 image parts in the conversation,
`prune_images_in_messages` raises `TypeError` (the pruning branch builds
a set of pairs containing unhashable dicts) instead of returning the
newest 19; with 19 or fewer image parts it returns the input unchanged,
so the pruning described by the claim never happens. -/
theorem prune_images_raises_beyond_limit :
    prune_images_in_messages [imageMsg 20] 19 =
      Except.error "TypeError: unhashable type: dict" ∧
    prune_images_in_messages [imageMsg 19] 19 = Except.ok [imageMsg 19] ∧
    (collectImages [imageMsg 20]).length = 20 := by
  exact ⟨rfl, rfl, rfl⟩

/-! ## Claim C2: compaction retry and the iteration budget -/

/-- C2 (code bug): recovering from a context-overflow error advances the
`for` counter (`continue` in `for iteration in range(max_iterations)`).
With the default budget of 50, an overflow on the first call followed by
a successful retry ends with `agent_done{text_response, iteration: 1}`,
not iteration 0; and with `max_iterations = 1` the overflow is compacted
but never retried: the run ends with `agent_done{max_iterations}` having
consumed only the failed completion call. -/
theorem compaction_retry_consumes_iteration_budget :
    (agentRun envC2 50 Option.none [userHi]).events =
      [LoopEvent.chunk (some "ok") (some "stop"),
       LoopEvent.agentDone "text_response" (some "ok") Option.none 1] ∧
    (agentRun envC2 50 Option.none [userHi]).compactCalls = 1 ∧
    (agentRun envC2 1 Option.none [userHi]).events =
      [LoopEvent.agentDone "max_iterations" Option.none Option.none 1] ∧
    (agentRun envC2 1 Option.none [userHi]).compactCalls = 1 := by
  exact ⟨rfl, rfl, rfl, rfl⟩

/-! ## Claim C9: the context-overflow detector -/

/-- C9 counterexample: an error whose `str()` matches no signature but
whose structured body contains the recognized signature
`context_length_exceeded` is not detected, although the full nine-pattern
predicate applied to the body matches. -/
theorem body_only_signature_not_detected :
    is_context_length_error
      ⟨"request failed", some "context_length_exceeded"⟩ = false ∧
    matchesOverflowSignatures (lowerStr "context_length_exceeded") = true := by
  exact ⟨rfl, rfl⟩

/-- C9 (amended): the detector returns true exactly when the case-folded
`str(error)` matches one of the nine signature patterns, or, failing
that, when the error carries a truthy body whose case-folded
stringification contains `prompt is too long` or `input is too long` —
only these two patterns are applied to the body, not all nine. -/
theorem overflow_detector_characterization (e : PyError) :
    is_context_length_error e =
      (matchesOverflowSignatures (lowerStr e.msg) ||
        (match e.body with
         | some b =>
           strContains (lowerStr b) "prompt is too long" ||
           strContains (lowerStr b) "input is too long"
         | Option.none => false)) := by
  cases e with
  | mk msg body =>
    cases body <;>
      simp only [is_context_length_error, matchesOverflowSignatures,
        bool_if_or, Bool.or_assoc, Bool.or_false]

/-! ## Claim C5: the sanitizer -/

theorem sanitizeAux_sublist (messages : List Message) :
    ∀ valid, List.Sublist (sanitizeAux messages valid) messages := by
  induction messages with
  | nil => intro valid; simp [sanitizeAux]
  | cons msg rest ih =>
    intro valid
    simp only [sanitizeAux]
    split
    · exact List.Sublist.cons₂ _ (ih _)
    · split
      · split
        · split
          · exact List.Sublist.cons₂ _ (ih _)
          · exact List.Sublist.cons _ (ih _)
        · exact List.Sublist.cons _ (ih _)
      · exact List.Sublist.cons₂ _ (ih _)

theorem sanitizeAux_filter_non_tool (messages : List Message) :
    ∀ valid, (sanitizeAux messages valid).filter (fun m => !(m.role == "tool")) =
      messages.filter (fun m => !(m.role == "tool")) := by
  induction messages with
  | nil => intro valid; rfl
  | cons msg rest ih =>
    intro valid
    simp only [sanitizeAux]
    by_cases h1 : (msg.role == "assistant" && !msg.tool_calls.isEmpty) = true
    · have hrole : msg.role = "assistant" := by
        have := ((Bool.and_eq_true _ _).mp h1).1
        simpa [beq_iff_eq] using this
      rw [if_pos h1]
      simp [List.filter_cons, hrole, ih]
    · rw [if_neg h1]
      by_cases h2 : (msg.role == "tool") = true
      · have hrole : msg.role = "tool" := by simpa [beq_iff_eq] using h2
        rw [if_pos h2]
        cases htc : msg.tool_call_id with
        | none => simp [List.filter_cons, hrole, ih]
        | some tid =>
          dsimp only
          split
          · simp [List.filter_cons, hrole, ih]
          · simp [List.filter_cons, hrole, ih]
      · rw [if_neg h2]
        simp [List.filter_cons, h2, ih]

theorem toFinset_filter_ne (l : List String) (tid : String) :
    (l.filter (fun x => x ≠ tid)).toFinset = l.toFinset.erase tid := by
  ext a
  simp only [List.mem_toFinset, List.mem_filter, Finset.mem_erase,
    decide_eq_true_eq]
  tauto

theorem sanitizeAux_eq_spec (messages : List Message) :
    ∀ valid : List String,
      sanitizeAux messages valid = sanitizeSpecAux messages valid.toFinset := by
  induction messages with
  | nil => intro valid; rfl
  | cons msg rest ih =>
    intro valid
    simp only [sanitizeAux, sanitizeSpecAux]
    by_cases h1 : msg.role = "assistant" ∧ msg.tool_calls ≠ []
    · have hb : (msg.role == "assistant" && !msg.tool_calls.isEmpty) = true := by
        simp [h1.1, List.isEmpty_iff, h1.2]
      rw [if_pos hb, if_pos h1, ih]
    · have hb : (msg.role == "assistant" && !msg.tool_calls.isEmpty) = false := by
        rcases Decidable.not_and_iff_or_not.mp h1 with h | h
        · simp [h]
        · have : msg.tool_calls = [] := Decidable.not_not.mp h
          simp [this]
      rw [if_neg (by simp [hb]), if_neg h1]
      by_cases h2 : msg.role = "tool"
      · rw [if_pos (by simp [h2]), if_pos h2]
        cases htc : msg.tool_call_id with
        | none => exact ih valid
        | some tid =>
          dsimp only
          by_cases h3 : tid ≠ "" ∧ tid ∈ valid
          · have hb3 : (decide (tid ≠ "") && valid.contains tid) = true := by
              simp only [Bool.and_eq_true, decide_eq_true_eq, List.elem_iff]
              exact h3
            have h3f : tid ≠ "" ∧ tid ∈ valid.toFinset := by
              simpa [List.mem_toFinset] using h3
            rw [if_pos hb3, if_pos h3f, ← toFinset_filter_ne, ih]
          · have hb3 : (decide (tid ≠ "") && valid.contains tid) = false := by
              rcases Decidable.not_and_iff_or_not.mp h3 with h | h
              · simp [Decidable.not_not.mp h]
              · simp only [Bool.and_eq_false_iff]
                right
                simpa [List.elem_iff] using h
            have h3f : ¬(tid ≠ "" ∧ tid ∈ valid.toFinset) := by
              simpa [List.mem_toFinset] using h3
            rw [if_neg (by rw [hb3]; exact Bool.false_ne_true), if_neg h3f, ih]
      · rw [if_neg (by simp [h2]), if_neg h2, ih]
        rfl

/-- C5 counterexample: after `assistant(tool_calls=[a])`, a second tool
message with the same id `a` is dropped (each id is consumed when
used), although `a` is in the id set of the most recent assistant
message with tool calls, which the claim says suffices to keep it. -/
theorem duplicate_tool_message_dropped :
    sanitize_messages_for_openai [asstA, toolA, toolA] = [asstA, toolA] ∧
    sanitize_messages_for_openai [asstA, toolA, toolA] ≠ [asstA, toolA, toolA] := by
  constructor
  · rfl
  · decide

/-- C5 (amended): the sanitizer keeps a tool message iff its (truthy)
`tool_call_id` is in the running valid set, where the set is replaced by
the ids of each assistant-with-tool-calls message, reset by every other
non-tool message, and each kept tool message consumes its id from the
set; all non-tool messages are kept; order is a subsequence of the
input; and the literal spec example drops exactly `tool(call_id=b)`. -/
theorem sanitize_characterization (messages : List Message) :
    sanitize_messages_for_openai messages = sanitizeSpec messages ∧
    List.Sublist (sanitize_messages_for_openai messages) messages ∧
    (sanitize_messages_for_openai messages).filter (fun m => !(m.role == "tool")) =
      messages.filter (fun m => !(m.role == "tool")) ∧
    sanitize_messages_for_openai [userHi, asstA, toolA, toolB, userHi] =
      [userHi, asstA, toolA, userHi] := by
  refine ⟨?_, sanitizeAux_sublist messages [], sanitizeAux_filter_non_tool messages [], rfl⟩
  have h := sanitizeAux_eq_spec messages []
  simpa [sanitize_messages_for_openai, sanitizeSpec] using h

/-! ## Agent loop lemmas -/

theorem runFrom_attempted_no_compact (env : AgentEnv) (maxIter : Nat) :
    ∀ remaining iteration callIdx messages,
      (runFrom env maxIter remaining iteration callIdx true messages).compactCalls = 0 := by
  intro remaining
  induction remaining with
  | zero => intro iteration callIdx messages; rfl
  | succ n ih =>
    intro iteration callIdx messages
    simp only [runFrom]
    cases henv : env.llm callIdx with
    | err e => simp
    | ok chunks =>
      cases h : (stepOk env messages chunks iteration).2.2 with
      | halt => simp [h]
      | next => simp [h, ih]

theorem runFrom_compact_le_one (env : AgentEnv) (maxIter : Nat) :
    ∀ remaining iteration callIdx attempted messages,
      (runFrom env maxIter remaining iteration callIdx attempted messages).compactCalls ≤ 1 := by
  intro remaining
  induction remaining with
  | zero => intro iteration callIdx attempted messages; exact Nat.zero_le 1
  | succ n ih =>
    intro iteration callIdx attempted messages
    simp only [runFrom]
    cases henv : env.llm callIdx with
    | err e =>
      dsimp only
      by_cases hc : (is_context_length_error e && !attempted) = true
      · rw [if_pos hc]
        by_cases hcp : env.hasCompaction = true
        · rw [if_pos hcp]
          cases hcompact : env.compact messages with
          | some compacted =>
            simp only [runFrom_attempted_no_compact env maxIter n]
            exact Nat.le_refl 1
          | none => exact Nat.le_refl 1
        · rw [if_neg hcp]; exact Nat.zero_le 1
      · rw [if_neg hc]; exact Nat.zero_le 1
    | ok chunks =>
      dsimp only
      cases h : (stepOk env messages chunks iteration).2.2 with
      | halt => simp [h]
      | next => simp only [h]; exact ih (iteration + 1) (callIdx + 1) attempted _

theorem runFrom_raised_from_llm (env : AgentEnv) (maxIter : Nat) :
    ∀ remaining iteration callIdx attempted messages e,
      (runFrom env maxIter remaining iteration callIdx attempted messages).outcome =
        AgentOutcome.raised e → ∃ n, env.llm n = LLMResult.err e := by
  intro remaining
  induction remaining with
  | zero =>
    intro iteration callIdx attempted messages e h
    exact absurd h (by simp [runFrom])
  | succ n ih =>
    intro iteration callIdx attempted messages e h
    simp only [runFrom] at h
    cases henv : env.llm callIdx with
    | err e2 =>
      rw [henv] at h
      dsimp only at h
      by_cases hc : (is_context_length_error e2 && !attempted) = true
      · rw [if_pos hc] at h
        by_cases hcp : env.hasCompaction = true
        · rw [if_pos hcp] at h
          cases hcompact : env.compact messages with
          | some compacted =>
            rw [hcompact] at h
            exact ih (iteration + 1) (callIdx + 1) true compacted e h
          | none =>
            rw [hcompact] at h
            simp only [AgentOutcome.raised.injEq] at h
            exact ⟨callIdx, h ▸ henv⟩
        · rw [if_neg hcp] at h
          simp only [AgentOutcome.raised.injEq] at h
          exact ⟨callIdx, h ▸ henv⟩
      · rw [if_neg hc] at h
        simp only [AgentOutcome.raised.injEq] at h
        exact ⟨callIdx, h ▸ henv⟩
    | ok chunks =>
      rw [henv] at h
      dsimp only at h
      cases hstep : (stepOk env messages chunks iteration).2.2 with
      | halt => rw [hstep] at h; exact absurd h (by simp)
      | next =>
        rw [hstep] at h
        exact ih (iteration + 1) (callIdx + 1) attempted _ e h

/-! ## Claim C3: at most one compaction per run -/

/-- C3: over every environment, a run calls `compact` at most once; once
the attempted flag is set, a later caught error is re-raised without
yielding further events and without compacting; and when the first call
overflows with compaction configured and succeeding, the whole run
performs exactly one `compact` call. -/
theorem compaction_at_most_once_per_run (env : AgentEnv) (maxIter : Nat)
    (systemPrompt : Option String) (messages : List Message) :
    (agentRun env maxIter systemPrompt messages).compactCalls ≤ 1 ∧
    (∀ remaining iteration callIdx msgs e,
      env.llm callIdx = LLMResult.err e →
      (runFrom env maxIter (remaining + 1) iteration callIdx true msgs).outcome =
        AgentOutcome.raised e ∧
      (runFrom env maxIter (remaining + 1) iteration callIdx true msgs).events = [] ∧
      (runFrom env maxIter (remaining + 1) iteration callIdx true msgs).compactCalls = 0) ∧
    (∀ remaining iteration callIdx msgs e compacted,
      env.llm callIdx = LLMResult.err e →
      is_context_length_error e = true →
      env.hasCompaction = true →
      env.compact msgs = some compacted →
      (runFrom env maxIter (remaining + 1) iteration callIdx false msgs).compactCalls = 1) := by
  refine ⟨runFrom_compact_le_one env maxIter maxIter 0 0 false _, ?_, ?_⟩
  · intro remaining iteration callIdx msgs e henv
    simp [runFrom, henv]
  · intro remaining iteration callIdx msgs e compacted henv hctx hcp hcompact
    simp [runFrom, henv, hctx, hcp, hcompact,
      runFrom_attempted_no_compact env maxIter remaining]

/-- C3 witness: the second and third conjuncts applied to the concrete
overflow environment `envC2`. -/
theorem compaction_at_most_once_per_run_witness :
    (runFrom envC2 50 50 0 0 true [userHi]).outcome =
      AgentOutcome.raised overflowErr ∧
    (runFrom envC2 50 50 0 0 false [userHi]).compactCalls = 1 := by
  constructor
  · exact ((compaction_at_most_once_per_run envC2 50 Option.none [userHi]).2.1
      49 0 0 [userHi] overflowErr rfl).1
  · exact (compaction_at_most_once_per_run envC2 50 Option.none [userHi]).2.2
      49 0 0 [userHi] overflowErr [userHi] rfl rfl rfl rfl

/-! ## Claim C7: messages appended per iteration -/

theorem execToolCalls_messages (env : AgentEnv) (calls : List AccToolCall) :
    ∀ messages, (execToolCalls env calls messages).2.1 =
      messages ++ (executedCalls calls).map (toolMsgFor env) := by
  induction calls with
  | nil => intro messages; simp [execToolCalls, executedCalls]
  | cons tc rest ih =>
    intro messages
    by_cases h : (tc.name == "idle") = true
    · simp [execToolCalls, executedCalls, h]
    · simp only [execToolCalls, executedCalls, if_neg h]
      rw [ih (messages ++ [toolMsgFor env tc])]
      simp

/-- C7 counterexample: in an iteration whose accumulated tool calls are
`[idle (c1), foo (c2)]`, the loop appends the assistant message carrying
both calls and one tool message (for `idle`), then returns; the second
call `foo` is never executed and gets no tool message, so the run ends
with two tool calls but a single tool message. -/
theorem call_after_idle_gets_no_tool_message :
    (agentRun envC7 50 Option.none [userHi]).messages =
      [userHi,
       assistantMsg "" [⟨"c1", "idle", "", Option.none⟩, ⟨"c2", "foo", "", Option.none⟩],
       { role := "tool", content := some (idlePayload ""),
         tool_call_id := some "c1", name := some "idle" }] ∧
    ((agentRun envC7 50 Option.none [userHi]).messages.filter
      (fun m => m.role == "tool")).length = 1 ∧
    (assistantMsg ""
      [⟨"c1", "idle", "", Option.none⟩, ⟨"c2", "foo", "", Option.none⟩]).tool_calls.length = 2 := by
  exact ⟨rfl, rfl, rfl⟩

/-- C7 (amended): in every iteration whose accumulated stream yields a
non-empty list of tool calls, the loop appends exactly one assistant
message carrying those calls and then, in call order, exactly one tool
message for each call up to and including the first `idle` call (all
calls when none is `idle`); calls after an `idle` are not executed. -/
theorem iteration_appends_assistant_then_tool_messages (env : AgentEnv)
    (messages : List Message) (chunks : List StreamChunk) (iteration : Nat)
    (h : materializeCalls (processChunks chunks).2.1 ≠ []) :
    (stepOk env messages chunks iteration).2.1 =
      messages ++
        assistantMsg (processChunks chunks).1
          (materializeCalls (processChunks chunks).2.1) ::
        (executedCalls (materializeCalls (processChunks chunks).2.1)).map
          (toolMsgFor env) := by
  have hne : (materializeCalls (processChunks chunks).2.1).isEmpty = false := by
    cases hc : materializeCalls (processChunks chunks).2.1 with
    | nil => exact absurd hc h
    | cons a l => rfl
  simp only [stepOk, hne, Bool.false_eq_true, if_false]
  cases hr : (execToolCalls env (materializeCalls (processChunks chunks).2.1)
      (messages ++ [assistantMsg (processChunks chunks).1
        (materializeCalls (processChunks chunks).2.1)])).2.2 with
  | some summary =>
    simp only [hr]
    rw [execToolCalls_messages]
    simp
  | none =>
    simp only [hr]
    rw [execToolCalls_messages]
    simp

/-- C7 witness: the amended statement applied to the concrete
idle-then-foo iteration. -/
theorem iteration_appends_assistant_then_tool_messages_witness :
    (stepOk envC7 [userHi] [idleFooChunk] 0).2.1 =
      [userHi] ++
        assistantMsg (processChunks [idleFooChunk]).1
          (materializeCalls (processChunks [idleFooChunk]).2.1) ::
        (executedCalls (materializeCalls (processChunks [idleFooChunk]).2.1)).map
          (toolMsgFor envC7) :=
  iteration_appends_assistant_then_tool_messages envC7 [userHi] [idleFooChunk] 0
    (by decide)

/-! ## Claim C6: tool failures become a final error chunk -/

/-- C6: whenever tool lookup fails or the dispatched execution raises,
the chunk stream of `run_tool_stream` ends in a final chunk with
`is_complete = true` whose delta begins with `Error: `; and the agent
loop never aborts because of a tool: a run can only raise an error that
some `stream_completion` call raised. -/
theorem run_tool_stream_error_contract (st : ToolProviderState)
    (outcome : String → StreamRun) (name tool_call_id : String)
    (h : toolLookupFails st name = true ∨ ((outcome name).error).isSome = true) :
    (∃ rest, (run_tool_stream st outcome name tool_call_id).getLast? =
      some ⟨tool_call_id, name, "Error: " ++ rest, true⟩) ∧
    (∀ env maxIter systemPrompt msgs e,
      (agentRun env maxIter systemPrompt msgs).outcome = AgentOutcome.raised e →
      ∃ n, env.llm n = LLMResult.err e) := by
  constructor
  · unfold run_tool_stream
    cases hsrc : dictGet st.tool_source_map name with
    | none =>
      refine ⟨"Tool not found: " ++ name, ?_⟩
      rw [← String.append_assoc]
      rfl
    | some source =>
      have hfail := h
      unfold toolLookupFails at hfail
      rw [hsrc] at hfail
      dsimp only at hfail ⊢
      by_cases hsb : (source == "sandbox") = true
      · rw [if_pos hsb] at hfail ⊢
        by_cases hmem : st.sandbox_tools.contains name = true
        · rw [if_pos hmem]
          have herr : ((outcome name).error).isSome = true := by
            rcases hfail with hf | hf
            · rw [hmem] at hf; exact absurd hf (by simp)
            · exact hf
          cases he : (outcome name).error with
          | none => rw [he] at herr; exact absurd herr (by simp)
          | some emsg =>
            refine ⟨emsg, ?_⟩
            unfold streamBody
            rw [he, List.getLast?_concat]
        · rw [if_neg hmem]
          refine ⟨"Sandbox tool not found: " ++ name, ?_⟩
          rw [← String.append_assoc]
          rfl
      · rw [if_neg hsb] at hfail ⊢
        by_cases hlc : (source == "local") = true
        · rw [if_pos hlc] at hfail ⊢
          cases hl : dictGet st.local_tools name with
          | none =>
            dsimp only
            refine ⟨"Tool not found or no handler: " ++ name, ?_⟩
            rw [← String.append_assoc]
            rfl
          | some hasHandler =>
            cases hasHandler with
            | false =>
              dsimp only
              refine ⟨"Tool not found or no handler: " ++ name, ?_⟩
              rw [← String.append_assoc]
              rfl
            | true =>
              dsimp only
              have herr : ((outcome name).error).isSome = true := by
                rw [hl] at hfail
                rcases hfail with hf | hf
                · exact absurd hf (by simp)
                · exact hf
              cases he : (outcome name).error with
              | none => rw [he] at herr; exact absurd herr (by simp)
              | some emsg =>
                refine ⟨emsg, ?_⟩
                unfold streamBody
                rw [he, List.getLast?_concat]
        · rw [if_neg hlc] at hfail ⊢
          by_cases hmc : st.mcp_connections.contains source = true
          · rw [if_pos hmc]
            have herr : ((outcome name).error).isSome = true := by
              rcases hfail with hf | hf
              · rw [hmc] at hf; exact absurd hf (by simp)
              · exact hf
            cases he : (outcome name).error with
            | none => rw [he] at herr; exact absurd herr (by simp)
            | some emsg =>
              refine ⟨emsg, ?_⟩
              unfold streamBody
              rw [he, List.getLast?_concat]
          · rw [if_neg hmc]
            refine ⟨"MCP server not connected: " ++ source, ?_⟩
            rw [← String.append_assoc]
            rfl
  · intro env maxIter systemPrompt msgs e hrun
    exact runFrom_raised_from_llm env maxIter maxIter 0 0 false _ e hrun

/-- C6 witness: the contract applied to an empty registry (lookup fails)
and to a sandbox tool whose execution raises. -/
theorem run_tool_stream_error_contract_witness :
    (∃ rest, (run_tool_stream ⟨[], [], [], []⟩ (fun _ => ⟨[], Option.none⟩)
        "w" "id1").getLast? = some ⟨"id1", "w", "Error: " ++ rest, true⟩) ∧
    (∃ rest, (run_tool_stream ⟨[("t", "sandbox")], ["t"], [], []⟩
        (fun _ => ⟨["a"], some "boom"⟩) "t" "id2").getLast? =
      some ⟨"id2", "t", "Error: " ++ rest, true⟩) :=
  ⟨(run_tool_stream_error_contract ⟨[], [], [], []⟩ (fun _ => ⟨[], Option.none⟩)
      "w" "id1" (Or.inl rfl)).1,
   (run_tool_stream_error_contract ⟨[("t", "sandbox")], ["t"], [], []⟩
      (fun _ => ⟨["a"], some "boom"⟩) "t" "id2" (Or.inr rfl)).1⟩

/-! ## Claim C8: final-content deduplication -/

/-- C8 counterexample: the run saves assistant messages `A` then `B` and
ends with `agent_done{final_content: A}`.  `A` is not the last saved
assistant message (that is `B`), so the claim requires one more
assistant message `A` to be persisted; the code compares against every
saved assistant message, finds the earlier `A`, and saves nothing. -/
theorem final_content_matching_earlier_message_not_saved :
    run_with_thread_saved exC8 = [mkAsst "A", mkAsst "B"] ∧
    run_with_thread_saved exC8 ≠ [mkAsst "A", mkAsst "B", mkAsst "A"] ∧
    ((processEvents exC8).messagesToSave.filter
      (fun m => m.role == "assistant")).getLast? = some (mkAsst "B") ∧
    (processEvents exC8).finalContent = "A" := by
  refine ⟨rfl, ?_, rfl, rfl⟩
  decide

/-- C8 (amended): with saving enabled, the non-empty `final_content` of
an `agent_done` event is persisted as one additional assistant message
exactly when no assistant message saved during the run (not only the
last one) has equal content. -/
theorem final_save_characterization (events : List KEvent) :
    run_with_thread_saved events =
      (processEvents events).messagesToSave ++
        (if (processEvents events).finalContent ≠ "" ∧
            ∀ m ∈ (processEvents events).messagesToSave,
              ¬(m.role = "assistant" ∧
                m.content = some (processEvents events).finalContent)
         then [{ role := "assistant",
                 content := some (processEvents events).finalContent }]
         else []) := by
  unfold run_with_thread_saved
  by_cases h1 : (processEvents events).finalContent = ""
  · simp [h1]
  · by_cases h2 : ∀ m ∈ (processEvents events).messagesToSave,
        ¬(m.role = "assistant" ∧
          m.content = some (processEvents events).finalContent)
    · have hany : ((processEvents events).messagesToSave.any (fun m =>
          m.role == "assistant" &&
            m.content == some (processEvents events).finalContent)) = false := by
        rw [Bool.eq_false_iff]
        intro hcon
        rcases List.any_eq_true.mp hcon with ⟨m, hm, hp⟩
        rcases (Bool.and_eq_true _ _).mp hp with ⟨hr, hc⟩
        exact h2 m hm ⟨by simpa [beq_iff_eq] using hr, by simpa [beq_iff_eq] using hc⟩
      rw [if_pos ⟨h1, h2⟩]
      simp [h1, hany]
    · have hany : ((processEvents events).messagesToSave.any (fun m =>
          m.role == "assistant" &&
            m.content == some (processEvents events).finalContent)) = true := by
        push_neg at h2
        rcases h2 with ⟨m, hm, hr, hc⟩
        exact List.any_eq_true.mpr ⟨m, hm, by simp [beq_iff_eq, hr, hc]⟩
      rw [if_neg (by intro hcon; exact h2 hcon.2)]
      simp [hany]

/-! ## Claim C10: which new messages are persisted before the run -/

/-- Every non-tool member of a message list survives sanitization. -/
theorem mem_sanitize_of_non_tool (messages : List Message) (m : Message)
    (hm : m ∈ messages) (hrole : m.role ≠ "tool") :
    m ∈ sanitize_messages_for_openai messages := by
  have hf := sanitizeAux_filter_non_tool messages []
  have hmem : m ∈ messages.filter (fun x => !(x.role == "tool")) := by
    rw [List.mem_filter]
    exact ⟨hm, by simp [hrole]⟩
  rw [← hf] at hmem
  exact (List.mem_filter.mp hmem).1

/-- C10 counterexample: a new orphan tool message is neither persisted
before the run nor included in the working context handed to the loop —
the sanitizer drops it, while the claim says every non-user, non-system
new message is included in the working context. -/
theorem orphan_tool_new_message_not_in_context :
    (run_with_thread_pre [] [orphanTool]).1 = [] ∧
    orphanTool ∉ (run_with_thread_pre [] [orphanTool]).1 ∧
    (run_with_thread_pre [] [orphanTool]).2 = [] := by
  refine ⟨rfl, ?_, rfl⟩
  intro hmem
  simp [run_with_thread_pre, sanitize_messages_for_openai, sanitizeAux,
    orphanTool] at hmem

/-- C10 (amended): with saving enabled, exactly the `user` and `system`
new messages are persisted before the run (any other role is not
written); the working context is the sanitized concatenation of history
and new messages, so a non-tool new message is always included in it,
while an orphan tool new message is dropped by the sanitizer. -/
theorem run_with_thread_pre_characterization (history new : List Message) :
    ((run_with_thread_pre history new).2 =
      new.filter (fun m => m.role == "user" || m.role == "system")) ∧
    (∀ m ∈ new, m.role ≠ "user" → m.role ≠ "system" →
      m ∉ (run_with_thread_pre history new).2) ∧
    ((run_with_thread_pre history new).1 =
      sanitize_messages_for_openai (history ++ new)) ∧
    (∀ m ∈ new, m.role ≠ "tool" → m ∈ (run_with_thread_pre history new).1) := by
  refine ⟨rfl, ?_, rfl, ?_⟩
  · intro m _hm h1 h2 hmem
    have := (List.mem_filter.mp hmem).2
    simp [h1, h2] at this
  · intro m hm h
    exact mem_sanitize_of_non_tool _ m (List.mem_append.mpr (Or.inr hm)) h

/-- C10 witness: the characterization applied to the orphan tool message
and to a user message. -/
theorem run_with_thread_pre_characterization_witness :
    orphanTool ∉ (run_with_thread_pre [] [orphanTool]).2 ∧
    userHi ∈ (run_with_thread_pre [] [userHi]).1 :=
  ⟨(run_with_thread_pre_characterization [] [orphanTool]).2.1 orphanTool
      (List.mem_singleton.mpr rfl) (by decide) (by decide),
   (run_with_thread_pre_characterization [] [userHi]).2.2.2 userHi
      (List.mem_singleton.mpr rfl) (by decide)⟩

end KafkaLLM
